import Mathlib

/-!
Shallow embedding of the signing core of a FROST-like threshold Schnorr
signature implementation (`src/sign.rs`), together with theorems checking the
natural-language specification against it.

Modelling conventions:
* `rug::Integer` is embedded as `Int` (arbitrary-precision signed integers).
* The `modular` module and the `FrostState` type are not part of the sources
  available under `src/` (only `sign.rs` is); they are modelled from the
  specification (sections 2, 3 and 4.1), as marked on each definition.
* The SHA-256 hex digest followed by the base-16 parse
  (`Integer::from_str_radix(digest(s), 16).unwrap()`) is modelled by an
  abstract function `H : String → Nat`: the digest of a well-formed hash is a
  fixed-length hex string whose parse always succeeds and is non-negative, so
  the composite is a total function into `Nat`.  All theorems are stated for
  every such `H`.
* A Rust panic (a failed `assert_eq!`, or a failing modular division /
  exponentiation inside a total-looking function) is embedded as `none` in an
  `Option`-valued result.
-/

/-- Modelled from the spec: the group context, holding the prime order `q` of
the working group and a generator `g` (`state.q`, `state.generator`). -/
structure FrostState where
  q : Int
  generator : Int

namespace modular

/-- Modelled from the spec: modular addition, result normalized into `[0, q)`. -/
def add (a b q : Int) : Int := (a + b) % q

/-- Modelled from the spec: modular subtraction, result normalized into `[0, q)`. -/
def sub (a b q : Int) : Int := (a - b) % q

/-- Modelled from the spec: modular multiplication, result normalized into `[0, q)`. -/
def mul (a b q : Int) : Int := (a * b) % q

/-- Modelled from the spec: the modular inverse of `b` mod `q`, found by
bounded search over the residues (meaningful whenever an inverse exists). -/
def inv (b q : Int) : Int :=
  ((((List.range q.natAbs).find?
    (fun (x : Nat) => (b * (x : Int)) % q == (1 : Int) % q)).getD 0 : Nat) : Int)

/-- Modelled from the spec: modular division multiplies by the modular inverse
of `b`; it fails if `b` has no inverse mod `q`, i.e. `gcd(b,q) ≠ 1`. -/
def div (a b q : Int) : Option Int :=
  if Int.gcd b q = 1 then some (mul a (inv b q) q) else none

/-- Modelled from the spec: modular exponentiation; the exponent is interpreted
as a non-negative integer and negative exponents fail. -/
def pow (base exp q : Int) : Option Int :=
  if 0 ≤ exp then some ((base ^ exp.toNat) % q) else none

end modular

/-- A participant's published per-round commitment (`PublicCommitment` in
`sign.rs`): identity, the two nonce commitments and the public key share. -/
structure PublicCommitment where
  participant_id : Int
  di : Int
  ei : Int
  public_share : Int
  deriving DecidableEq

/-- Canonical string form of a commitment, `format!("{}::{}::{}", id, di, ei)`
(`PublicCommitment::to_string` in `sign.rs`). -/
def PublicCommitment.to_string (pc : PublicCommitment) : String :=
  toString pc.participant_id ++ "::" ++ toString pc.di ++ "::" ++ toString pc.ei

/-- `compute_binding_value` from `sign.rs`: hash of
`format!("{}::::{}::::{}", id, message, commitment.to_string())`, parsed as a
base-16 integer (the composite is the abstract `H`) and reduced mod `q`. -/
def compute_binding_value (H : String → Nat) (state : FrostState)
    (participant_commitment : PublicCommitment) (message : String) : Int :=
  ((H (toString participant_commitment.participant_id ++ "::::" ++
    message ++ "::::" ++ participant_commitment.to_string) : Int)) % state.q

/-- `compute_group_commitment_and_challenge` from `sign.rs`: folds
`mul(mul(acc, di, q), pow(ei, ρ_i, q), q)` over the commitment list starting
from `1`, then hashes `format!("{}::::{}::::{}", R, group_public_key, message)`
reduced mod `q`.  A failing `modular::pow` is a panic, hence `none`. -/
def compute_group_commitment_and_challenge (H : String → Nat) (state : FrostState)
    (participants_commitments : List PublicCommitment) (message : String)
    (group_public_key : Int) : Option (Int × Int) := do
  let group_commitment ← participants_commitments.foldlM (fun acc pc => do
    let binding_value := compute_binding_value H state pc message
    let p ← modular.pow pc.ei binding_value state.q
    pure (modular.mul (modular.mul acc pc.di state.q) p state.q)) (1 : Int)
  let challenge := ((H (toString group_commitment ++ "::::" ++
    toString group_public_key ++ "::::" ++ message) : Int)) % state.q
  pure (group_commitment, challenge)

/-- `lagrange_coefficient` from `sign.rs`: folds
`mul(acc, div(j, sub(j, participant_id, q), q), q)` over `j` in
`0..number_of_participants` starting from `1`.  A failing `modular::div` is a
panic, hence `none`.  Note the fold runs over every `j`, with no index
skipped. -/
def lagrange_coefficient (state : FrostState) (participant_id : Int)
    (number_of_participants : Nat) : Option Int :=
  (List.range number_of_participants).foldlM (fun acc (j : Nat) => do
    let d ← modular.div ((j : Int))
      (modular.sub ((j : Int)) participant_id state.q) state.q
    pure (modular.mul acc d state.q)) (1 : Int)

/-- `compute_own_response` from `sign.rs`:
`add(d, add(mul(e, ρ, q), mul(mul(λ, s, q), c, q), q), q)` with `ρ` recomputed
from the caller's own commitment. -/
def compute_own_response (H : String → Nat) (state : FrostState)
    (participant_commitment : PublicCommitment) (private_key : Int)
    (nonces : Int × Int) (lagrange : Int) (challenge : Int)
    (message : String) : Int :=
  let binding_value := compute_binding_value H state participant_commitment message
  let di := nonces.1
  let ei := nonces.2
  modular.add di
    (modular.add (modular.mul ei binding_value state.q)
      (modular.mul (modular.mul lagrange private_key state.q) challenge state.q)
      state.q)
    state.q

/-- `verify_participants` from `sign.rs`: computes `gz = pow(g, z, q)` once,
then folds over the commitments; each step recomputes the binding value,
`ri = mul(di, pow(ei, ρ, q), q)` and
`to_validate = mul(ri, pow(Y, mul(c, λ, q), q), q)`, runs
`assert_eq!(to_validate, gz, ...)` (a panic on mismatch, hence `none`) and
accumulates `acc && (to_validate == gz)`. -/
def verify_participants (H : String → Nat) (state : FrostState)
    (participants_commitments : List PublicCommitment) (message : String)
    (own_response : Int) (challenge : Int)
    (number_of_participants : Nat) : Option Bool := do
  let gz ← modular.pow state.generator own_response state.q
  participants_commitments.foldlM (fun acc pc => do
    let binding_value := compute_binding_value H state pc message
    let rp ← modular.pow pc.ei binding_value state.q
    let ri := modular.mul pc.di rp state.q
    let lam ← lagrange_coefficient state pc.participant_id number_of_participants
    let pw ← modular.pow pc.public_share
      (modular.mul challenge lam state.q) state.q
    let to_validate := modular.mul ri pw state.q
    if to_validate = gz then pure (acc && (to_validate == gz)) else none)
    true

/-- `compute_aggregate_response` from `sign.rs`: folds `add(acc, z_i, q)` over
the responses starting from `0`. -/
def compute_aggregate_response (state : FrostState)
    (participants_responses : List Int) : Int :=
  participants_responses.foldl (fun acc pr => modular.add acc pr state.q) 0

/-! Specification-side definitions, written from the spec's words, to be
compared with the source-side definitions above. -/

/-- Specification-side (section 4.4): the Lagrange coefficient as the product
over `j` from `0` to `n-1` with `j ≠ i` of `j / (j - i) mod q` — the factor at
index `j = i` is skipped. -/
def lagrange_coefficient_spec (state : FrostState) (participant_id : Int)
    (number_of_participants : Nat) : Option Int :=
  ((List.range number_of_participants).filter
      (fun (j : Nat) => ((j : Int) != participant_id))).foldlM (fun acc (j : Nat) => do
    let d ← modular.div ((j : Int))
      (modular.sub ((j : Int)) participant_id state.q) state.q
    pure (modular.mul acc d state.q)) (1 : Int)

/-- Specification-side (section 4.2): the binding-factor hash input as one
string, `id || "::::" || message || "::::" || id || "::" || D || "::" || E`,
grouped as written in the spec. -/
def binding_input_spec (pc : PublicCommitment) (message : String) : String :=
  ((((((toString pc.participant_id ++ "::::") ++ message) ++ "::::") ++
    toString pc.participant_id) ++ "::") ++ toString pc.di) ++ "::" ++
    toString pc.ei

/-- Specification-side (section 4.2): `ρ_i = H(binding input) mod q`. -/
def compute_binding_value_spec (H : String → Nat) (state : FrostState)
    (pc : PublicCommitment) (message : String) : Int :=
  ((H (binding_input_spec pc message) : Int)) % state.q

/-- The group-commitment fold step exactly as the source's closure computes
it: `mul(mul(acc, D_i, q), pow(E_i, ρ_i, q), q)`. -/
def group_step (H : String → Nat) (state : FrostState) (message : String)
    (acc : Int) (pc : PublicCommitment) : Option Int := do
  let binding_value := compute_binding_value H state pc message
  let p ← modular.pow pc.ei binding_value state.q
  pure (modular.mul (modular.mul acc pc.di state.q) p state.q)

/-- Specification-side (section 4.3): one fold step of the group commitment,
multiplying the accumulator by the blinded factor `D_i · E_i^{ρ_i} mod q`. -/
def group_step_spec (H : String → Nat) (state : FrostState) (message : String)
    (acc : Int) (pc : PublicCommitment) : Option Int := do
  let rho := compute_binding_value H state pc message
  let p ← modular.pow pc.ei rho state.q
  pure (modular.mul acc (modular.mul pc.di p state.q) state.q)

/-- Specification-side (section 4.3): the group commitment as the left-to-right
fold, starting from `1`, of the blinded factors `D_i · E_i^{ρ_i} mod q`. -/
def group_commitment_spec (H : String → Nat) (state : FrostState)
    (pcs : List PublicCommitment) (message : String) : Option Int :=
  pcs.foldlM (group_step_spec H state message) (1 : Int)

/-- One commitment's blinded contribution `D_i · E_i^{ρ_i}` to the group
commitment, as a plain integer before reduction. -/
def blinded_factor (H : String → Nat) (state : FrostState) (message : String)
    (pc : PublicCommitment) : Int :=
  pc.di * pc.ei ^ (compute_binding_value H state pc message).toNat

/-- Specification-side (section 4.3): the challenge
`c = H(R || "::::" || group_public_key || "::::" || message) mod q`. -/
def challenge_spec (H : String → Nat) (state : FrostState) (r : Int)
    (group_public_key : Int) (message : String) : Int :=
  ((H (toString r ++ "::::" ++ toString group_public_key ++ "::::" ++
    message) : Int)) % state.q

/-- Specification-side (section 4.5): `z_i = d_i + e_i·ρ_i + λ_i·s_i·c mod q`,
with `ρ_i` recomputed from the caller's own commitment. -/
def own_response_spec (H : String → Nat) (state : FrostState)
    (pc : PublicCommitment) (private_key : Int) (nonces : Int × Int)
    (lagrange : Int) (challenge : Int) (message : String) : Int :=
  (nonces.1 + nonces.2 * compute_binding_value H state pc message +
    lagrange * private_key * challenge) % state.q

/-- Specification-side (section 4.6): one participant's recomputed term — the
partial commitment `r_i = D_i · E_i^{ρ_i}` multiplied by `Y_i^{c·λ_i}`, which
the verifier compares against `g^z`. -/
def to_validate_spec (H : String → Nat) (state : FrostState) (message : String)
    (challenge : Int) (number_of_participants : Nat)
    (pc : PublicCommitment) : Option Int := do
  let rho := compute_binding_value H state pc message
  let p ← modular.pow pc.ei rho state.q
  let ri := modular.mul pc.di p state.q
  let lam ← lagrange_coefficient state pc.participant_id number_of_participants
  let pw ← modular.pow pc.public_share
    (modular.mul challenge lam state.q) state.q
  pure (modular.mul ri pw state.q)

/-- The verification fold step exactly as the source's closure computes it,
including the `assert_eq!` that panics (is `none`) on a mismatch. -/
def verify_step (H : String → Nat) (state : FrostState) (message : String)
    (challenge : Int) (number_of_participants : Nat) (gz : Int)
    (acc : Bool) (pc : PublicCommitment) : Option Bool := do
  let binding_value := compute_binding_value H state pc message
  let rp ← modular.pow pc.ei binding_value state.q
  let ri := modular.mul pc.di rp state.q
  let lam ← lagrange_coefficient state pc.participant_id number_of_participants
  let pw ← modular.pow pc.public_share
    (modular.mul challenge lam state.q) state.q
  let to_validate := modular.mul ri pw state.q
  if to_validate = gz then pure (acc && (to_validate == gz)) else none

/-! Concrete inputs used by witnesses and counterexamples. -/

/-- A small concrete group context: `q = 5`, `g = 2`. -/
def st5 : FrostState := ⟨5, 2⟩

/-- A hash stub for concrete evaluations: every digest parses to `0`. -/
def Hzero : String → Nat := fun _ => 0

/-- A concrete commitment whose recomputed term does not match `g^z` below. -/
def pcBad : PublicCommitment := ⟨7, 1, 1, 1⟩

/-- A second concrete commitment, for the permutation witness. -/
def pcA : PublicCommitment := ⟨1, 2, 3, 4⟩

/-- A third concrete commitment, for the permutation witness. -/
def pcB : PublicCommitment := ⟨2, 3, 4, 1⟩

/-! Arithmetic helper lemmas about `%` (Euclidean remainder on `Int`). -/

/-- Reducing the left factor before a product does not change the residue. -/
theorem emod_mul_left (x y q : Int) : (x % q * y) % q = (x * y) % q := by
  conv_lhs => rw [Int.mul_emod, Int.emod_emod_of_dvd _ dvd_rfl, ← Int.mul_emod]

/-- Reducing the right factor before a product does not change the residue. -/
theorem emod_mul_right (x y q : Int) : (x * (y % q)) % q = (x * y) % q := by
  conv_lhs => rw [Int.mul_emod, Int.emod_emod_of_dvd _ dvd_rfl, ← Int.mul_emod]

/-- Reducing the left summand before a sum does not change the residue. -/
theorem emod_add_left (x y q : Int) : (x % q + y) % q = (x + y) % q :=
  Int.emod_add_emod x q y

/-- Reducing the right summand before a sum does not change the residue. -/
theorem emod_add_right (x y q : Int) : (x + y % q) % q = (x + y) % q :=
  Int.add_emod_emod x y q

/-- Reducing both summands before a sum does not change the residue. -/
theorem emod_add_both (x y q : Int) : (x % q + y % q) % q = (x + y) % q := by
  rw [emod_add_left, emod_add_right]

/-! Theorems for the claims. -/

/-- C4: for every group context, commitment and message, `compute_binding_value`
returns the digest of the single UTF-8 string
`"id::::message::::id::D::E"` (the commitment canonicalized as
`"<id>::<d>::<e>"`), parsed as a base-16 big integer and reduced mod `q`. -/
theorem compute_binding_value_correct (H : String → Nat) (state : FrostState)
    (pc : PublicCommitment) (message : String) :
    compute_binding_value H state pc message =
      compute_binding_value_spec H state pc message := by
  unfold compute_binding_value compute_binding_value_spec binding_input_spec
    PublicCommitment.to_string
  simp [String.append_assoc]

/-- C6: for every group context, own commitment, private share `s`, nonce pair
`(d, e)`, Lagrange coefficient `λ`, challenge `c` and message,
`compute_own_response` returns `d + e·ρ + λ·s·c mod q`, where `ρ` is the
binding factor recomputed from the caller's own commitment and the message. -/
theorem compute_own_response_correct (H : String → Nat) (state : FrostState)
    (pc : PublicCommitment) (private_key : Int) (nonces : Int × Int)
    (lagrange : Int) (challenge : Int) (message : String) :
    compute_own_response H state pc private_key nonces lagrange challenge
        message =
      own_response_spec H state pc private_key nonces lagrange challenge
        message := by
  simp only [compute_own_response, own_response_spec, modular.add, modular.mul]
  rw [emod_mul_left, emod_add_both, emod_add_right]
  congr 1
  ring

/-- C7: for every group context and participant id, `lagrange_coefficient` with
`number_of_participants = 0` is defined and returns `1`, the empty product. -/
theorem lagrange_coefficient_empty (state : FrostState) (participant_id : Int) :
    lagrange_coefficient state participant_id 0 = some 1 := rfl

/-- A fold of modular additions starting from a reduced accumulator computes
the reduced sum. -/
theorem foldl_modular_add (q : Int) (l : List Int) : ∀ a : Int,
    l.foldl (fun acc pr => (acc + pr) % q) (a % q) = (a + l.sum) % q := by
  induction l with
  | nil => intro a; simp
  | cons x xs ih =>
      intro a
      simp only [List.foldl_cons]
      rw [emod_add_left, ih (a + x)]
      simp [add_assoc]

/-- `compute_aggregate_response` is the modular sum of the responses. -/
theorem compute_aggregate_response_eq_sum (state : FrostState)
    (rs : List Int) :
    compute_aggregate_response state rs = rs.sum % state.q := by
  cases rs with
  | nil => simp [compute_aggregate_response]
  | cons x xs =>
      unfold compute_aggregate_response modular.add
      simp only [List.foldl_cons]
      rw [foldl_modular_add state.q xs (0 + x)]
      simp

/-- C8: for every group context and list of responses,
`compute_aggregate_response` returns the sum of the responses mod `q`, and the
result is invariant under any permutation of the response list. -/
theorem compute_aggregate_response_correct (state : FrostState)
    (rs rs' : List Int) (h : rs.Perm rs') :
    compute_aggregate_response state rs = rs.sum % state.q ∧
    compute_aggregate_response state rs =
      compute_aggregate_response state rs' := by
  constructor
  · exact compute_aggregate_response_eq_sum state rs
  · rw [compute_aggregate_response_eq_sum, compute_aggregate_response_eq_sum,
      h.sum_eq]

/-- Witness for C8 at a concrete input. -/
theorem compute_aggregate_response_correct_witness :
    compute_aggregate_response st5 [1, 2, 3] = ([1, 2, 3] : List Int).sum % st5.q ∧
    compute_aggregate_response st5 [1, 2, 3] =
      compute_aggregate_response st5 [3, 1, 2] :=
  compute_aggregate_response_correct st5 [1, 2, 3] [3, 1, 2] (by decide)

/-- A division of `0` by anything, when it succeeds, yields `0`. -/
theorem modular_div_zero_left (b q : Int)
    (h : (modular.div 0 b q).isSome) : modular.div 0 b q = some 0 := by
  unfold modular.div at h ⊢
  by_cases hg : Int.gcd b q = 1
  · simp [hg, modular.mul]
  · simp [hg] at h

/-- If every Lagrange factor over the list is defined, the fold started at an
accumulator of `0` stays `0`. -/
theorem lagrange_fold_zero (state : FrostState) (participant_id : Int) :
    ∀ (l : List Nat),
    (∀ j ∈ l, (modular.div ((j : Int))
      (modular.sub ((j : Int)) participant_id state.q) state.q).isSome) →
    l.foldlM (fun acc (j : Nat) => do
      let d ← modular.div ((j : Int))
        (modular.sub ((j : Int)) participant_id state.q) state.q
      pure (modular.mul acc d state.q)) (0 : Int) = some 0 := by
  intro l
  induction l with
  | nil => intro _; rfl
  | cons x xs ih =>
      intro hall
      obtain ⟨d, hd⟩ := Option.isSome_iff_exists.mp (hall x (by simp))
      have hmul : modular.mul 0 d state.q = 0 := by simp [modular.mul]
      simp only [List.foldlM_cons, hd, Option.bind_eq_bind, Option.some_bind,
        pure, hmul]
      exact ih (fun j hj => hall j (List.mem_cons_of_mem _ hj))

/-- If some Lagrange factor over the list is undefined, the fold fails from any
accumulator. -/
theorem lagrange_fold_none (state : FrostState) (participant_id : Int) :
    ∀ (l : List Nat),
    (∃ j ∈ l, modular.div ((j : Int))
      (modular.sub ((j : Int)) participant_id state.q) state.q = none) →
    ∀ acc : Int,
    l.foldlM (fun acc (j : Nat) => do
      let d ← modular.div ((j : Int))
        (modular.sub ((j : Int)) participant_id state.q) state.q
      pure (modular.mul acc d state.q)) acc = none := by
  intro l
  induction l with
  | nil => intro hx; exact absurd hx (by simp)
  | cons x xs ih =>
      intro hx acc
      obtain ⟨j, hj, hdiv⟩ := hx
      rcases List.mem_cons.mp hj with h1 | h1
      · subst h1
        simp [List.foldlM_cons, hdiv]
      · cases hd : modular.div ((x : Int))
            (modular.sub ((x : Int)) participant_id state.q) state.q with
        | none => simp [List.foldlM_cons, hd]
        | some d =>
            simp only [List.foldlM_cons, hd, Option.bind_eq_bind,
              Option.some_bind, pure]
            exact ih ⟨j, h1, hdiv⟩ _

/-- C2 counterexample: at `q = 5`, `participant_id = 0`, `n = 1`, the code's
coefficient fails (the j = 0 factor divides by the zero denominator), while
the spec's skip-product is the empty product `1`. -/
theorem lagrange_coefficient_skip_counterexample :
    lagrange_coefficient st5 0 1 = none ∧
    lagrange_coefficient_spec st5 0 1 = some 1 ∧
    lagrange_coefficient st5 0 1 ≠ lagrange_coefficient_spec st5 0 1 := by
  refine ⟨by decide, by decide, by decide⟩

/-- C2 (amended): `lagrange_coefficient` folds over every `j` in `0..n-1` with
no index skipped: when the participant id differs from every `j` in the range
it agrees with the spec's skip-product, and when the id equals some `j` in the
range (and `q ≥ 2`) the included `j = i` factor has the non-invertible zero
denominator, so the computation fails instead of skipping it. -/
theorem lagrange_coefficient_no_skip (state : FrostState)
    (participant_id : Int) (n : Nat) :
    ((∀ j ∈ List.range n, (j : Int) ≠ participant_id) →
      lagrange_coefficient state participant_id n =
        lagrange_coefficient_spec state participant_id n) ∧
    ((∃ j ∈ List.range n, (j : Int) = participant_id) → 2 ≤ state.q →
      lagrange_coefficient state participant_id n = none) := by
  constructor
  · intro h
    have hf : (List.range n).filter
        (fun (j : Nat) => ((j : Int) != participant_id)) = List.range n :=
      List.filter_eq_self.mpr (fun a ha => by simpa using h a ha)
    unfold lagrange_coefficient lagrange_coefficient_spec
    rw [hf]
  · intro hx hq
    obtain ⟨j, hj, hij⟩ := hx
    have hdiv : modular.div ((j : Int))
        (modular.sub ((j : Int)) participant_id state.q) state.q = none := by
      rw [← hij]
      unfold modular.div modular.sub
      have h0 : ((j : Int) - (j : Int)) % state.q = 0 := by simp
      rw [h0]
      have hne : state.q.natAbs ≠ 1 := by omega
      simp [Int.gcd_zero_left, hne]
    exact lagrange_fold_none state participant_id (List.range n)
      ⟨j, hj, hdiv⟩ 1

/-- Witness for C2 (amended) at concrete inputs: the id `7` lies outside
`{0, 1}` so the code agrees with the spec's skip-product, and the id `0` lies
inside `{0}` so the code fails. -/
theorem lagrange_coefficient_no_skip_witness :
    lagrange_coefficient st5 7 2 = lagrange_coefficient_spec st5 7 2 ∧
    lagrange_coefficient st5 0 1 = none :=
  ⟨(lagrange_coefficient_no_skip st5 7 2).1 (by decide),
   (lagrange_coefficient_no_skip st5 0 1).2 (by decide) (by decide)⟩

/-- C10: for every group context, every `n ≥ 1` and every participant id for
which all the modular divisions in the fold succeed, `lagrange_coefficient`
returns `0`: the fold includes the `j = 0` term, whose numerator is `0`, and
never skips an index. -/
theorem lagrange_coefficient_zero (state : FrostState) (participant_id : Int)
    (n : Nat) (hn : 1 ≤ n)
    (hdiv : ∀ j ∈ List.range n, (modular.div ((j : Int))
      (modular.sub ((j : Int)) participant_id state.q) state.q).isSome) :
    lagrange_coefficient state participant_id n = some 0 := by
  obtain ⟨m, rfl⟩ : ∃ m, n = m + 1 := ⟨n - 1, by omega⟩
  unfold lagrange_coefficient
  rw [List.range_succ_eq_map]
  have h0 := hdiv 0 (by simp)
  simp only [Nat.cast_zero] at h0
  have hz := modular_div_zero_left
    (modular.sub 0 participant_id state.q) state.q h0
  have hmul : modular.mul 1 0 state.q = 0 := by simp [modular.mul]
  simp only [List.foldlM_cons, Nat.cast_zero, hz, Option.bind_eq_bind,
    Option.some_bind, pure, hmul]
  exact lagrange_fold_zero state participant_id ((List.range m).map Nat.succ)
    (fun j hj => hdiv j
      (by rw [List.range_succ_eq_map]; exact List.mem_cons_of_mem _ hj))

/-- Witness for C10 at a concrete input: `q = 5`, id `7`, `n = 2`; both
divisions succeed and the coefficient is `0`. -/
theorem lagrange_coefficient_zero_witness :
    lagrange_coefficient st5 7 2 = some 0 :=
  lagrange_coefficient_zero st5 7 2 (by decide) (by decide)

/-- Associativity of modular multiplication with intermediate reductions. -/
theorem modular_mul_assoc (a b c q : Int) :
    modular.mul (modular.mul a b q) c q = modular.mul a (modular.mul b c q) q := by
  unfold modular.mul
  rw [emod_mul_left, emod_mul_right, mul_assoc]

/-- The binding value is always a non-negative integer. -/
theorem compute_binding_value_nonneg (H : String → Nat) (state : FrostState)
    (pc : PublicCommitment) (message : String) :
    0 ≤ compute_binding_value H state pc message := by
  unfold compute_binding_value
  rcases eq_or_ne state.q 0 with h | h
  · rw [h, Int.emod_zero]
    exact Int.natCast_nonneg _
  · exact Int.emod_nonneg _ h

/-- Exponentiation by a binding value never fails. -/
theorem pow_binding_value (H : String → Nat) (state : FrostState)
    (pc : PublicCommitment) (message : String) :
    modular.pow pc.ei (compute_binding_value H state pc message) state.q =
      some ((pc.ei ^ (compute_binding_value H state pc message).toNat) %
        state.q) := by
  unfold modular.pow
  rw [if_pos (compute_binding_value_nonneg H state pc message)]

/-- The source's group-commitment step multiplies the accumulator by the
blinded factor and reduces. -/
theorem group_step_eval (H : String → Nat) (state : FrostState)
    (message : String) (acc : Int) (pc : PublicCommitment) :
    group_step H state message acc pc =
      some ((acc * blinded_factor H state message pc) % state.q) := by
  simp only [group_step]
  rw [pow_binding_value]
  simp only [Option.bind_eq_bind, Option.some_bind, pure]
  unfold modular.mul blinded_factor
  rw [emod_mul_left, emod_mul_right, mul_assoc]

/-- The spec-side group-commitment step computes the same value. -/
theorem group_step_spec_eval (H : String → Nat) (state : FrostState)
    (message : String) (acc : Int) (pc : PublicCommitment) :
    group_step_spec H state message acc pc =
      some ((acc * blinded_factor H state message pc) % state.q) := by
  simp only [group_step_spec]
  rw [pow_binding_value]
  simp only [Option.bind_eq_bind, Option.some_bind, pure]
  unfold modular.mul blinded_factor
  rw [emod_mul_right, ← mul_assoc, emod_mul_right, mul_assoc]

/-- The source's fold step and the spec's fold step are the same function. -/
theorem group_step_eq_spec (H : String → Nat) (state : FrostState)
    (message : String) :
    group_step H state message = group_step_spec H state message :=
  funext fun acc => funext fun pc =>
    (group_step_eval H state message acc pc).trans
      (group_step_spec_eval H state message acc pc).symm

/-- `compute_group_commitment_and_challenge`, written with the named fold
step; equal by definitional unfolding. -/
theorem compute_group_commitment_and_challenge_def (H : String → Nat)
    (state : FrostState) (pcs : List PublicCommitment) (message : String)
    (group_public_key : Int) :
    compute_group_commitment_and_challenge H state pcs message
        group_public_key =
      (pcs.foldlM (group_step H state message) (1 : Int)).bind
        (fun r => some (r, challenge_spec H state r group_public_key
          message)) := rfl

/-- The spec-side group-commitment fold from a reduced accumulator is the
reduced product of the blinded factors. -/
theorem group_commitment_spec_fold_prod (H : String → Nat)
    (state : FrostState) (message : String) :
    ∀ (pcs : List PublicCommitment) (a : Int),
    pcs.foldlM (group_step_spec H state message) (a % state.q) =
      some ((a * (pcs.map (blinded_factor H state message)).prod) %
        state.q) := by
  intro pcs
  induction pcs with
  | nil => intro a; simp
  | cons pc rest ih =>
      intro a
      rw [List.foldlM_cons, group_step_spec_eval]
      simp only [Option.bind_eq_bind, Option.some_bind]
      rw [emod_mul_left, ih (a * blinded_factor H state message pc)]
      simp [mul_assoc]

/-- The spec-side group commitment of a non-empty list is the reduced product
of the blinded factors. -/
theorem group_commitment_spec_cons (H : String → Nat) (state : FrostState)
    (message : String) (pc : PublicCommitment)
    (rest : List PublicCommitment) :
    group_commitment_spec H state (pc :: rest) message =
      some ((((pc :: rest).map (blinded_factor H state message)).prod) %
        state.q) := by
  unfold group_commitment_spec
  rw [List.foldlM_cons, group_step_spec_eval]
  simp only [Option.bind_eq_bind, Option.some_bind, one_mul]
  rw [group_commitment_spec_fold_prod H state message rest
    (blinded_factor H state message pc)]
  simp [List.prod_cons]

/-- C5: for every group context, commitment list, message and group public
key, `compute_group_commitment_and_challenge` returns the pair `(R, c)` where
`R` is the left-to-right fold, starting from `1`, of `D_i · E_i^{ρ_i} mod q`
over the commitment list, and `c` is the hash of
`"R::::group_public_key::::message"` parsed base-16 and reduced mod `q`. -/
theorem compute_group_commitment_and_challenge_correct (H : String → Nat)
    (state : FrostState) (pcs : List PublicCommitment) (message : String)
    (group_public_key : Int) :
    compute_group_commitment_and_challenge H state pcs message
        group_public_key =
      (group_commitment_spec H state pcs message).map
        (fun r => (r, challenge_spec H state r group_public_key message)) := by
  rw [compute_group_commitment_and_challenge_def, group_step_eq_spec]
  unfold group_commitment_spec
  cases pcs.foldlM (group_step_spec H state message) (1 : Int) with
  | none => rfl
  | some r => rfl

/-- The group commitment of the source, extracted from the returned pair,
equals the spec-side group commitment. -/
theorem group_commitment_fst (H : String → Nat) (state : FrostState)
    (pcs : List PublicCommitment) (message : String) (group_public_key : Int) :
    (compute_group_commitment_and_challenge H state pcs message
        group_public_key).map Prod.fst =
      group_commitment_spec H state pcs message := by
  rw [compute_group_commitment_and_challenge_def, group_step_eq_spec]
  unfold group_commitment_spec
  cases pcs.foldlM (group_step_spec H state message) (1 : Int) with
  | none => rfl
  | some r => rfl

/-- The spec-side group commitment only depends on the multiset of
commitments. -/
theorem group_commitment_spec_perm (H : String → Nat) (state : FrostState)
    (message : String) (pcs₁ pcs₂ : List PublicCommitment)
    (h : pcs₁.Perm pcs₂) :
    group_commitment_spec H state pcs₁ message =
      group_commitment_spec H state pcs₂ message := by
  cases pcs₁ with
  | nil =>
      have h2 : pcs₂ = [] := h.symm.eq_nil
      rw [h2]
  | cons pc rest =>
      cases pcs₂ with
      | nil => exact absurd h.eq_nil (by simp)
      | cons pc2 rest2 =>
          rw [group_commitment_spec_cons, group_commitment_spec_cons,
            (h.map (blinded_factor H state message)).prod_eq]

/-- C9: for every group context, message, group public key and fixed set of
commitments, the group commitment `R` returned by
`compute_group_commitment_and_challenge` is the same for every ordering
(permutation) of the commitment list. -/
theorem group_commitment_perm_invariant (H : String → Nat)
    (state : FrostState) (message : String) (group_public_key : Int)
    (pcs₁ pcs₂ : List PublicCommitment) (h : pcs₁.Perm pcs₂) :
    (compute_group_commitment_and_challenge H state pcs₁ message
        group_public_key).map Prod.fst =
      (compute_group_commitment_and_challenge H state pcs₂ message
        group_public_key).map Prod.fst := by
  rw [group_commitment_fst, group_commitment_fst]
  exact group_commitment_spec_perm H state message pcs₁ pcs₂ h

/-- Witness for C9 on the two orderings of a concrete two-element list. -/
theorem group_commitment_perm_invariant_witness :
    (compute_group_commitment_and_challenge Hzero st5 [pcA, pcB] "m" 3).map
        Prod.fst =
      (compute_group_commitment_and_challenge Hzero st5 [pcB, pcA] "m" 3).map
        Prod.fst :=
  group_commitment_perm_invariant Hzero st5 "m" 3 [pcA, pcB] [pcB, pcA]
    (List.Perm.swap pcB pcA [])

/-- `verify_participants`, written with the named fold step; equal by
definitional unfolding. -/
theorem verify_participants_def (H : String → Nat) (state : FrostState)
    (pcs : List PublicCommitment) (message : String)
    (own_response challenge : Int) (number_of_participants : Nat) :
    verify_participants H state pcs message own_response challenge
        number_of_participants =
      (modular.pow state.generator own_response state.q).bind
        (fun gz => pcs.foldlM
          (verify_step H state message challenge number_of_participants gz)
          true) := rfl

/-- One verification step checks the recomputed term against `gz`, keeping the
accumulator on success and failing (panicking) on a mismatch. -/
theorem verify_step_eval (H : String → Nat) (state : FrostState)
    (message : String) (challenge : Int) (number_of_participants : Nat)
    (gz : Int) (acc : Bool) (pc : PublicCommitment) :
    verify_step H state message challenge number_of_participants gz acc pc =
      (to_validate_spec H state message challenge number_of_participants
        pc).bind
        (fun tv => if tv = gz then some (acc && (tv == gz)) else none) := by
  simp only [verify_step, to_validate_spec, Option.bind_eq_bind]
  cases hrp : modular.pow pc.ei (compute_binding_value H state pc message)
      state.q with
  | none => rfl
  | some rp =>
      simp only [Option.some_bind]
      cases hlam : lagrange_coefficient state pc.participant_id
          number_of_participants with
      | none => rfl
      | some lam =>
          simp only [Option.some_bind]
          cases hpw : modular.pow pc.public_share
              (modular.mul challenge lam state.q) state.q with
          | none => rfl
          | some pw => rfl

/-- The verification fold either fails or hands back its accumulator. -/
theorem verify_fold_result (H : String → Nat) (state : FrostState)
    (message : String) (challenge : Int) (number_of_participants : Nat)
    (gz : Int) :
    ∀ (pcs : List PublicCommitment) (acc : Bool),
    pcs.foldlM (verify_step H state message challenge number_of_participants
      gz) acc = none ∨
    pcs.foldlM (verify_step H state message challenge number_of_participants
      gz) acc = some acc := by
  intro pcs
  induction pcs with
  | nil => intro acc; right; rfl
  | cons pc rest ih =>
      intro acc
      rw [List.foldlM_cons, verify_step_eval]
      cases htv : to_validate_spec H state message challenge
          number_of_participants pc with
      | none => left; simp
      | some tv =>
          by_cases h : tv = gz
          · subst h
            simp only [Option.bind_eq_bind, Option.some_bind]
            simp only [if_true, beq_self_eq_true, Bool.and_true,
              Option.bind_eq_bind, Option.some_bind]
            exact ih acc
          · left
            simp [h]

/-- The verification fold returns `some true` exactly when the accumulator was
`true` and every commitment's recomputed term equals `gz`. -/
theorem verify_fold_true_iff (H : String → Nat) (state : FrostState)
    (message : String) (challenge : Int) (number_of_participants : Nat)
    (gz : Int) :
    ∀ (pcs : List PublicCommitment) (acc : Bool),
    (pcs.foldlM (verify_step H state message challenge number_of_participants
      gz) acc = some true ↔
      (acc = true ∧ ∀ pc ∈ pcs, to_validate_spec H state message challenge
        number_of_participants pc = some gz)) := by
  intro pcs
  induction pcs with
  | nil => intro acc; simp [List.foldlM_nil, pure]
  | cons pc rest ih =>
      intro acc
      rw [List.foldlM_cons, verify_step_eval]
      cases htv : to_validate_spec H state message challenge
          number_of_participants pc with
      | none => simp [htv]
      | some tv =>
          by_cases h : tv = gz
          · subst h
            simp only [Option.bind_eq_bind, Option.some_bind]
            simp only [if_true, beq_self_eq_true, Bool.and_true,
              Option.bind_eq_bind, Option.some_bind]
            rw [ih acc]
            simp [List.forall_mem_cons, htv]
          · simp only [Option.bind_eq_bind, Option.some_bind, if_neg h]
            simp [List.forall_mem_cons, htv, h]

/-- C1 (refuted by the code, which aborts): at the concrete mismatching input
the function panics — the `assert_eq!` fires, embedded as `none` — instead of
returning `false`; and in general `verify_participants` can never return the
boolean `false`: its only outcomes are a panic or `some true`. -/
theorem verify_participants_aborts_on_mismatch :
    verify_participants Hzero st5 [pcBad] "m" 1 0 0 = none ∧
    ∀ (H : String → Nat) (state : FrostState) (pcs : List PublicCommitment)
      (message : String) (own_response challenge : Int)
      (number_of_participants : Nat),
      verify_participants H state pcs message own_response challenge
          number_of_participants = none ∨
      verify_participants H state pcs message own_response challenge
          number_of_participants = some true := by
  constructor
  · decide
  · intro H state pcs message own_response challenge number_of_participants
    rw [verify_participants_def]
    cases hgz : modular.pow state.generator own_response state.q with
    | none => left; rfl
    | some gz =>
        simp only [Option.bind_eq_bind, Option.some_bind]
        exact verify_fold_result H state message challenge
          number_of_participants gz pcs true

/-- C3: `verify_participants` computes `g^z` once and compares every
commitment's recomputed term `r_i · Y_i^{c·λ_i}` against it, returning `true`
exactly when `g^z` is computed and every per-participant comparison holds. -/
theorem verify_participants_correct (H : String → Nat) (state : FrostState)
    (pcs : List PublicCommitment) (message : String)
    (own_response challenge : Int) (number_of_participants : Nat) :
    verify_participants H state pcs message own_response challenge
        number_of_participants = some true ↔
      ∃ gz, modular.pow state.generator own_response state.q = some gz ∧
        ∀ pc ∈ pcs, to_validate_spec H state message challenge
          number_of_participants pc = some gz := by
  rw [verify_participants_def]
  cases hgz : modular.pow state.generator own_response state.q with
  | none => simp
  | some gz =>
      simp only [Option.bind_eq_bind, Option.some_bind]
      rw [verify_fold_true_iff]
      simp
